import Mathlib

/-!
Verification of the peer-discovery and handshake orchestration of
gutenbergrtc (src/app.js).  SignalBlobs travel as serialized strings, so a
JavaScript Set of blobs is embedded as a duplicate-free `List String` kept
in insertion order; each JS Set primitive used by the source gets its own
definition below, and every operation of the GRTC class that the claims
touch is transcribed on top of them.
-/

/-- JS `set.add(e)`: a Set keeps at most one copy of each value, appending a
genuinely new value at the end of the insertion order. -/
def jsSetAdd (s : List String) (e : String) : List String :=
  if e ∈ s then s else s ++ [e]

/-- JS `set.delete(e)`: removes the value (a Set holds it at most once). -/
def jsSetDelete (s : List String) (e : String) : List String :=
  s.filter (fun x => x ≠ e)

/-- JS `new Set(iterable)`: starts empty and adds the elements in order. -/
def jsSetNew (l : List String) : List String :=
  l.foldl jsSetAdd []

/-- src/app.js lines 123-129: `setDifference(setA, setB)` copies `setA` into a
fresh set `difference` and deletes each element of `setB` from the copy. -/
def setDifference (setA setB : List String) : List String :=
  setB.foldl (fun difference elem => jsSetDelete difference elem) setA

lemma mem_jsSetAdd {s : List String} {e x : String} :
    x ∈ jsSetAdd s e ↔ x ∈ s ∨ x = e := by
  by_cases h : e ∈ s
  · simp only [jsSetAdd, if_pos h]
    exact ⟨Or.inl, fun hx => hx.elim id (fun he => he ▸ h)⟩
  · simp [jsSetAdd, if_neg h]

lemma nodup_jsSetAdd {s : List String} (e : String) (h : s.Nodup) :
    (jsSetAdd s e).Nodup := by
  by_cases he : e ∈ s
  · simpa [jsSetAdd, if_pos he] using h
  · simp only [jsSetAdd, if_neg he]
    refine List.Nodup.append h (List.nodup_singleton e) ?_
    intro a ha hae
    rcases List.mem_singleton.mp hae with rfl
    exact he ha

lemma mem_foldl_jsSetAdd (l : List String) :
    ∀ (s : List String) (x : String),
      x ∈ l.foldl jsSetAdd s ↔ x ∈ s ∨ x ∈ l := by
  induction l with
  | nil => intro s x; simp
  | cons a l ih =>
    intro s x
    simp only [List.foldl_cons, ih, mem_jsSetAdd, List.mem_cons]
    tauto

lemma nodup_foldl_jsSetAdd (l : List String) :
    ∀ s : List String, s.Nodup → (l.foldl jsSetAdd s).Nodup := by
  induction l with
  | nil => intro s hs; simpa using hs
  | cons a l ih =>
    intro s hs
    exact ih (jsSetAdd s a) (nodup_jsSetAdd a hs)

lemma mem_jsSetNew {l : List String} {x : String} :
    x ∈ jsSetNew l ↔ x ∈ l := by
  simp [jsSetNew, mem_foldl_jsSetAdd]

lemma nodup_jsSetNew (l : List String) : (jsSetNew l).Nodup :=
  nodup_foldl_jsSetAdd l [] List.nodup_nil

lemma mem_jsSetDelete {s : List String} {e x : String} :
    x ∈ jsSetDelete s e ↔ x ∈ s ∧ x ≠ e := by
  simp [jsSetDelete]

lemma nodup_jsSetDelete {s : List String} (e : String) (h : s.Nodup) :
    (jsSetDelete s e).Nodup :=
  List.Nodup.filter _ h

lemma mem_setDifference (setB : List String) :
    ∀ (setA : List String) (x : String),
      x ∈ setDifference setA setB ↔ x ∈ setA ∧ x ∉ setB := by
  induction setB with
  | nil => intro setA x; simp [setDifference]
  | cons e B ih =>
    intro setA x
    have step : setDifference setA (e :: B) = setDifference (jsSetDelete setA e) B := rfl
    rw [step, ih, mem_jsSetDelete, List.mem_cons]
    tauto

lemma nodup_setDifference (setB : List String) :
    ∀ setA : List String, setA.Nodup → (setDifference setA setB).Nodup := by
  induction setB with
  | nil => intro setA h; simpa [setDifference] using h
  | cons e B ih =>
    intro setA h
    exact ih (jsSetDelete setA e) (nodup_jsSetDelete e h)

/-- C8: `setDifference(A, B)` is the asymmetric difference A minus B — an
element is in the result iff it is in A and not in B — and the operation is
not symmetric in its arguments. -/
theorem setDifference_is_asymmetric_difference :
    (∀ (setA setB : List String) (x : String),
        x ∈ setDifference setA setB ↔ x ∈ setA ∧ x ∉ setB) ∧
    (∃ setA setB : List String, setDifference setA setB ≠ setDifference setB setA) := by
  refine ⟨fun setA setB x => mem_setDifference setB setA x, ⟨["a"], [], ?_⟩⟩
  decide

/-- The discovery-relevant mutable fields of a GRTC instance: `otherPeers`
(the seen-peer Set, src line 91) and the serialized form of the currently
held own signal, `JSON.stringify(self.peerSignal)` (src lines 85 and 151). -/
structure DiscoveryState where
  otherPeers : List String
  peerSignal : String
deriving DecidableEq

/-- The body of the `forEach` callback in `listenSignalRoutine` (src lines
150-155): when the candidate differs from the serialized own signal, a
peerFound event is recorded and the candidate is added to `otherPeers`. -/
def routineStep (p : String) (acc : DiscoveryState × List String)
    (signal : String) : DiscoveryState × List String :=
  if signal ≠ p then
    ({ acc.1 with otherPeers := jsSetAdd acc.1.otherPeers signal }, acc.2 ++ [signal])
  else acc

/-- src/app.js lines 147-157: one discovery poll.  `resp` is the list the
SignalStore returned; the routine walks `setDifference(new Set(resp),
otherPeers)` with the callback above.  The returned list collects the
payloads of the peerFound events emitted by this poll, in order. -/
def listenSignalRoutine (st : DiscoveryState) (resp : List String) :
    DiscoveryState × List String :=
  (setDifference (jsSetNew resp) st.otherPeers).foldl (routineStep st.peerSignal) (st, [])

lemma foldl_routineStep (p : String) (l : List String) :
    ∀ (st : DiscoveryState) (out : List String),
      l.foldl (routineStep p) (st, out) =
        (⟨(l.filter (fun s => s ≠ p)).foldl jsSetAdd st.otherPeers, st.peerSignal⟩,
          out ++ l.filter (fun s => s ≠ p)) := by
  induction l with
  | nil => intro st out; simp
  | cons a l ih =>
    intro st out
    by_cases ha : a ≠ p
    · simp [List.foldl_cons, routineStep, if_pos ha, ih, List.filter_cons,
        decide_eq_true ha]
    · have ha2 : (decide (a ≠ p)) = false := by
        simp only [decide_eq_false_iff_not]; exact ha
      simp [List.foldl_cons, routineStep, if_neg ha, ih, List.filter_cons, ha2]

/-- The emissions of one poll are exactly the fresh store values that differ
from the serialized own signal. -/
lemma listenSignalRoutine_out (st : DiscoveryState) (resp : List String) :
    (listenSignalRoutine st resp).2 =
      (setDifference (jsSetNew resp) st.otherPeers).filter
        (fun s => s ≠ st.peerSignal) := by
  simp [listenSignalRoutine, foldl_routineStep]

lemma listenSignalRoutine_otherPeers (st : DiscoveryState) (resp : List String) :
    (listenSignalRoutine st resp).1.otherPeers =
      ((listenSignalRoutine st resp).2).foldl jsSetAdd st.otherPeers := by
  simp [listenSignalRoutine, foldl_routineStep]

lemma listenSignalRoutine_peerSignal (st : DiscoveryState) (resp : List String) :
    (listenSignalRoutine st resp).1.peerSignal = st.peerSignal := by
  simp [listenSignalRoutine, foldl_routineStep]

lemma listenSignalRoutine_out_nodup (st : DiscoveryState) (resp : List String) :
    (listenSignalRoutine st resp).2.Nodup := by
  rw [listenSignalRoutine_out]
  exact List.Nodup.filter _ (nodup_setDifference st.otherPeers (jsSetNew resp) (nodup_jsSetNew resp))

lemma listenSignalRoutine_out_fresh {st : DiscoveryState} {resp : List String}
    {x : String} (hx : x ∈ (listenSignalRoutine st resp).2) :
    x ∉ st.otherPeers ∧ x ≠ st.peerSignal := by
  rw [listenSignalRoutine_out] at hx
  rcases List.mem_filter.mp hx with ⟨hmem, hne⟩
  refine ⟨(mem_setDifference st.otherPeers (jsSetNew resp) x |>.mp hmem).2, ?_⟩
  simpa using hne

lemma listenSignalRoutine_mem_otherPeers (st : DiscoveryState) (resp : List String)
    (x : String) :
    x ∈ (listenSignalRoutine st resp).1.otherPeers ↔
      x ∈ st.otherPeers ∨ x ∈ (listenSignalRoutine st resp).2 := by
  rw [listenSignalRoutine_otherPeers]
  exact mem_foldl_jsSetAdd _ _ _

/-- External stimuli that touch the discovery state during a session: a
timer/initial poll resolving with a store response (src lines 135-157), or
the transport signal event assigning `self.peerSignal` (src lines 186-189,
which for the joinee happens between polls). -/
inductive SessionStep
  | poll (resp : List String)
  | setSignal (s : String)

/-- Runs a session: each JS callback runs to completion before the next one
(single-threaded event loop), so a session is a sequence of atomic steps.
Returns the final state and every peerFound payload emitted, in order. -/
def runSteps (st : DiscoveryState) : List SessionStep → DiscoveryState × List String
  | [] => (st, [])
  | SessionStep.poll r :: rest =>
    let pr := listenSignalRoutine st r
    let later := runSteps pr.1 rest
    (later.1, pr.2 ++ later.2)
  | SessionStep.setSignal s :: rest =>
    runSteps { st with peerSignal := s } rest

lemma runSteps_mono (steps : List SessionStep) :
    ∀ (st : DiscoveryState) (x : String),
      x ∈ st.otherPeers → x ∈ (runSteps st steps).1.otherPeers := by
  induction steps with
  | nil => intro st x hx; simpa [runSteps] using hx
  | cons s rest ih =>
    intro st x hx
    cases s with
    | poll r =>
      exact ih (listenSignalRoutine st r).1 x
        ((listenSignalRoutine_mem_otherPeers st r x).mpr (Or.inl hx))
    | setSignal s => exact ih { st with peerSignal := s } x hx

lemma runSteps_out_fresh (steps : List SessionStep) :
    ∀ (st : DiscoveryState) (x : String),
      x ∈ (runSteps st steps).2 → x ∉ st.otherPeers := by
  induction steps with
  | nil => intro st x hx; simp [runSteps] at hx
  | cons s rest ih =>
    intro st x hx
    cases s with
    | poll r =>
      simp only [runSteps, List.mem_append] at hx
      rcases hx with hx | hx
      · exact (listenSignalRoutine_out_fresh hx).1
      · intro hmem
        exact ih (listenSignalRoutine st r).1 x hx
          ((listenSignalRoutine_mem_otherPeers st r x).mpr (Or.inl hmem))
    | setSignal s => exact ih { st with peerSignal := s } x hx

lemma runSteps_out_nodup (steps : List SessionStep) :
    ∀ st : DiscoveryState, (runSteps st steps).2.Nodup := by
  induction steps with
  | nil => intro st; simp [runSteps]
  | cons s rest ih =>
    intro st
    cases s with
    | poll r =>
      simp only [runSteps]
      rw [List.nodup_append]
      refine ⟨listenSignalRoutine_out_nodup st r, ih (listenSignalRoutine st r).1, ?_⟩
      intro x hx1 hx2
      have hin : x ∈ (listenSignalRoutine st r).1.otherPeers :=
        (listenSignalRoutine_mem_otherPeers st r x).mpr (Or.inr hx1)
      exact runSteps_out_fresh rest (listenSignalRoutine st r).1 x hx2 hin
    | setSignal s => exact ih { st with peerSignal := s }

/-- C1: within one session — any interleaving of polls and own-signal
updates, starting from the empty seen-peer set of the constructor — the
discovery loop never emits the same SignalBlob twice, and no single poll
ever emits the serialization of the signal the session holds while that
poll runs. -/
theorem discovery_no_reemit_no_self (p0 : String) (steps : List SessionStep) :
    (runSteps ⟨[], p0⟩ steps).2.Nodup ∧
    (∀ (st : DiscoveryState) (resp : List String) (x : String),
        x ∈ (listenSignalRoutine st resp).2 → x ≠ st.peerSignal) :=
  ⟨runSteps_out_nodup steps ⟨[], p0⟩,
    fun _ _ _ hx => (listenSignalRoutine_out_fresh hx).2⟩

/-- C1 witness: on the concrete session with own signal "a" and two polls
both answering ["a", "b"], the payload "b" of the first poll is emitted once
and differs from the held signal. -/
theorem discovery_no_reemit_no_self_witness :
    (runSteps ⟨[], "a"⟩ [SessionStep.poll ["a", "b"], SessionStep.poll ["a", "b"]]).2.Nodup ∧
    ("b" : String) ≠ (⟨[], "a"⟩ : DiscoveryState).peerSignal :=
  ⟨(discovery_no_reemit_no_self "a"
      [SessionStep.poll ["a", "b"], SessionStep.poll ["a", "b"]]).1,
    (discovery_no_reemit_no_self "a" []).2 ⟨[], "a"⟩ ["a", "b"] "b" (by decide)⟩

/-- C2: on the first poll of a session whose own blob serializes to `a`,
with empty SeenPeers and the store answering `[a, b]`, exactly one peerFound
event fires, carrying `b`; `b` is added to `otherPeers` and `a` is not. -/
theorem first_poll_emits_only_other (a b : String) (hab : a ≠ b) :
    listenSignalRoutine ⟨[], a⟩ [a, b] = (⟨[b], a⟩, [b]) := by
  have hba : ¬(b = a) := fun h => hab h.symm
  have h1 : jsSetNew [a, b] = [a, b] := by
    simp [jsSetNew, jsSetAdd, hba]
  have h2 : setDifference [a, b] ([] : List String) = [a, b] := rfl
  rw [listenSignalRoutine]
  show (setDifference (jsSetNew [a, b]) [] ).foldl (routineStep a) (⟨[], a⟩, []) = _
  rw [h1, h2, foldl_routineStep]
  have hfa : (decide (a ≠ a)) = false := by simp
  have hfb : (decide (b ≠ a)) = true := by simp [hba]
  simp [List.filter_cons, hfa, hfb, jsSetAdd, hba]

/-- C2 witness at the concrete blobs "A" and "B". -/
theorem first_poll_emits_only_other_witness :
    listenSignalRoutine ⟨[], "A"⟩ ["A", "B"] = (⟨["B"], "A"⟩, ["B"]) :=
  first_poll_emits_only_other "A" "B" (by decide)

lemma pollRun_peerSignal (rs : List (List String)) :
    ∀ st : DiscoveryState,
      (runSteps st (rs.map SessionStep.poll)).1.peerSignal = st.peerSignal := by
  induction rs with
  | nil => intro st; simp [runSteps]
  | cons r rs ih =>
    intro st
    simp only [List.map_cons, runSteps]
    rw [ih, listenSignalRoutine_peerSignal]

lemma pollRun_not_self (rs : List (List String)) :
    ∀ st : DiscoveryState, st.peerSignal ∉ st.otherPeers →
      st.peerSignal ∉ (runSteps st (rs.map SessionStep.poll)).1.otherPeers := by
  induction rs with
  | nil => intro st h; simpa [runSteps] using h
  | cons r rs ih =>
    intro st h
    simp only [List.map_cons, runSteps]
    have hsig := listenSignalRoutine_peerSignal st r
    have h2 : (listenSignalRoutine st r).1.peerSignal ∉ (listenSignalRoutine st r).1.otherPeers := by
      rw [hsig, listenSignalRoutine_mem_otherPeers]
      rintro (hin | hout)
      · exact h hin
      · exact (listenSignalRoutine_out_fresh hout).2 rfl
    have := ih (listenSignalRoutine st r).1 h2
    rwa [hsig] at this

/-- C7: in every session state reached by polling from the constructor state
(empty `otherPeers` and a fixed published signal serialization `p`), the
seen-peer set never contains `p`; and a poll only adds elements to
`otherPeers`, never removing any. -/
theorem otherPeers_never_self_and_monotone (p : String) (rs : List (List String)) :
    p ∉ (runSteps ⟨[], p⟩ (rs.map SessionStep.poll)).1.otherPeers ∧
    (∀ (st : DiscoveryState) (resp : List String) (x : String),
        x ∈ st.otherPeers → x ∈ (listenSignalRoutine st resp).1.otherPeers) :=
  ⟨pollRun_not_self rs ⟨[], p⟩ (by simp),
    fun st resp x hx => (listenSignalRoutine_mem_otherPeers st resp x).mpr (Or.inl hx)⟩

/-- C7 witness: concrete instance of the monotonicity part — a blob already
in `otherPeers` is still there after a further poll. -/
theorem otherPeers_never_self_and_monotone_witness :
    ("s" : String) ∈ (listenSignalRoutine ⟨["s"], "p"⟩ ["t"]).1.otherPeers :=
  (otherPeers_never_self_and_monotone "p" []).2 ⟨["s"], "p"⟩ ["t"] "s" (by decide)

/-- Externally visible actions of a session, in the order the code performs
them: a SignalStore get (a discovery poll, src lines 43-52 and 149), a
SignalStore set (publishing the own offer, src lines 57-66 and 255),
registering the 5-second interval (src line 138), constructing the
simple-peer transport (src line 181) and installing the security handler
(src line 257). -/
inductive GAction
  | storeGet
  | storeSet
  | startTimer
  | peerCreate
  | securityInstall
deriving DecidableEq

/-- Index of the first occurrence of `a`; length of the list if absent. -/
def firstIdx (a : GAction) : List GAction → Nat
  | [] => 0
  | b :: l => if b = a then 0 else firstIdx a l + 1

/-- src/app.js lines 239-260, the action order of `init` as a function of the
constructor argument `joinee` (per the constructor comment, `joinee` is true
for the initiator: the transport is created with `initiator: joinee === true`,
src line 182).  With `joinee == false` the session first runs `listenSignal`
(immediate poll then interval, lines 245-248), then creates the transport;
the interval fires `ticks` more polls until the transport yields the local
offer, after which the offer is published and `listenSignal` runs again
(lines 253-258).  With `joinee` true nothing runs before `peerHandler`;
the initiator transport produces its offer, `updateSignal` publishes it and
only then does `listenSignal` start polling. -/
def sessionTrace (joinee : Bool) (ticks : Nat) : List GAction :=
  if joinee = false then
    GAction.storeGet :: GAction.startTimer :: GAction.peerCreate ::
      (List.replicate ticks GAction.storeGet ++
        (GAction.storeSet :: GAction.storeGet :: GAction.startTimer :: [GAction.securityInstall]))
  else
    GAction.peerCreate :: GAction.storeSet :: GAction.storeGet ::
      GAction.startTimer :: [GAction.securityInstall]

/-- C3: an initiator session (`joinee` true) publishes its offer strictly
before its first poll, while a joinee session (`joinee` false) issues a poll
strictly before it publishes its own offer — whatever the number of interval
ticks the joinee waits through. -/
theorem init_publish_poll_order (ticks : Nat) :
    firstIdx GAction.storeSet (sessionTrace true ticks) <
      firstIdx GAction.storeGet (sessionTrace true ticks) ∧
    firstIdx GAction.storeGet (sessionTrace false ticks) <
      firstIdx GAction.storeSet (sessionTrace false ticks) := by
  constructor
  · simp [sessionTrace, firstIdx]
  · simp only [sessionTrace, if_pos rfl, firstIdx]
    simp [firstIdx]

/-- The timer bookkeeping of a GRTC instance: the handles of the interval
timers currently scheduled (in creation order), the handle `setInterval`
would hand out next, and the `listenSignalTimer` field (src line 92, set at
line 138). -/
structure TimerState where
  activeTimers : List Nat
  nextId : Nat
  listenSignalTimer : Nat
deriving DecidableEq

/-- Constructor state (src lines 81-96): no interval scheduled and
`listenSignalTimer = 0`; handles start at 1 as in browsers. -/
def grtcTimersInit : TimerState := ⟨[], 1, 0⟩

/-- src/app.js lines 135-142: `listenSignal` runs `listenSignalRoutine`
once immediately (one storeGet) and registers a fresh interval, overwriting
`listenSignalTimer` with the new handle.  There is no guard against a timer
that is already running, and the old handle is not cleared. -/
def listenSignal (ts : TimerState) : TimerState × List GAction :=
  (⟨ts.activeTimers ++ [ts.nextId], ts.nextId + 1, ts.nextId⟩, [GAction.storeGet])

/-- At the next due interval every still-scheduled timer fires
`listenSignalRoutine` once, i.e. issues one SignalStore get each. -/
def tickPolls (ts : TimerState) : List GAction :=
  ts.activeTimers.map (fun _ => GAction.storeGet)

/-- Modelled from the spec: src/app.js has no `stop()`/`close()`; the spec
(sections 4.2 and 6) requires that stopping a session cancel the discovery
timer, i.e. `clearInterval(self.listenSignalTimer)` on the handle the
session tracks. -/
def stop (ts : TimerState) : TimerState :=
  { ts with activeTimers := ts.activeTimers.filter (fun i => i ≠ ts.listenSignalTimer) }

/-- The timer state after `listenSignal` has been started twice, which is
exactly what `init` does for a joinee session: once at src line 247 and once
at line 256 after the own offer is published. -/
def listenSignalTwice : TimerState :=
  (listenSignal (listenSignal grtcTimersInit).1).1

/-- C5 counterexample: after two calls to `listenSignal` it is not the case
that exactly one timer is active and exactly one poll fires at the next due
interval — the second start is not a no-op. -/
theorem listenSignal_twice_not_single :
    ¬ (listenSignalTwice.activeTimers.length = 1 ∧
        (tickPolls listenSignalTwice).length = 1) := by
  decide

/-- C5 amended: `listenSignal` is not idempotent.  Each call issues one
immediate poll and registers one more interval; after two calls two timers
are scheduled, two polls fire at the next due interval, and
`listenSignalTimer` only remembers the second handle. -/
theorem listenSignal_twice_two_timers :
    listenSignalTwice.activeTimers = [1, 2] ∧
    tickPolls listenSignalTwice = [GAction.storeGet, GAction.storeGet] ∧
    listenSignalTwice.listenSignalTimer = 2 ∧
    (listenSignal grtcTimersInit).2 = [GAction.storeGet] := by
  decide

/-- C6 counterexample: for the joinee session, which started the loop twice,
SignalStore gets keep happening after `stop()` — clearing
`listenSignalTimer` only cancels the second interval and the first one,
whose handle was overwritten, keeps polling. -/
theorem stop_after_joinee_start_still_polls :
    ¬ (tickPolls (stop listenSignalTwice) = []) := by
  decide

/-- C6 amended: `stop()` cancels the interval currently tracked by
`listenSignalTimer`, so a session that started discovery once polls no more
after stopping; but a joinee session, having started the loop twice, keeps
one orphaned interval that still issues a get at every due tick. -/
theorem stop_cancels_tracked_timer_only :
    tickPolls (stop (listenSignal grtcTimersInit).1) = [] ∧
    tickPolls (stop listenSignalTwice) = [GAction.storeGet] := by
  decide

/-- Events flowing through the GRTC EventEmitter and its simple-peer
transport: peerFound (emitted by the discovery loop, src line 152),
peerConnected (re-emitted from the transport connect event, src line 200),
publicKey and peerData (emitted by `dataHandler`, src lines 166-170). -/
inductive GEvent
  | peerFound
  | peerConnected
  | publicKey
  | peerData
deriving DecidableEq

/-- The two security-relevant effects of the handshake: generating the RSA
key pair and sending the serialized publicKey payload over the transport. -/
inductive SecAction
  | generateKeys
  | sendPublicKey
deriving DecidableEq

/-- The handler lists an emitter holds for each event a security effect could
be attached to; an emit runs the list in registration order. -/
structure Handlers where
  onPeerFound : List SecAction
  onPublicKey : List SecAction
  onPeerConnected : List SecAction
deriving DecidableEq

def emptyHandlers : Handlers := ⟨[], [], []⟩

/-- src/app.js lines 217-233: `securityHandler` registers on peerFound a
callback that generates the key pair and then sends the publicKey payload,
and on publicKey a callback with an empty body.  It registers nothing on
peerConnected: the transport connect event (src lines 199-201) only
re-emits peerConnected, to which no handler of the library attaches any
security effect. -/
def securityHandler (h : Handlers) : Handlers :=
  { h with
      onPeerFound := h.onPeerFound ++ [SecAction.generateKeys, SecAction.sendPublicKey],
      onPublicKey := h.onPublicKey ++ [] }

/-- Effects run when `event` is emitted on a session with handler table `h`. -/
def dispatchEvt (h : Handlers) : GEvent → List SecAction
  | GEvent.peerFound => h.onPeerFound
  | GEvent.publicKey => h.onPublicKey
  | GEvent.peerConnected => h.onPeerConnected
  | GEvent.peerData => []

/-- C4 counterexample: with the security handshake installed, the transport
connected event triggers neither key generation nor a publicKey send —
refuting the claim that both are triggered by transport-connected. -/
theorem connect_triggers_no_key_exchange :
    dispatchEvt (securityHandler emptyHandlers) GEvent.peerConnected = [] := by
  decide

/-- C4 amended: key generation followed by the publicKey send is triggered
by the discovery loop's peerFound event — an event that precedes transport
connection — and by no other event; transport-connected and a received
publicKey trigger nothing. -/
theorem key_exchange_triggered_by_peerFound :
    dispatchEvt (securityHandler emptyHandlers) GEvent.peerFound =
      [SecAction.generateKeys, SecAction.sendPublicKey] ∧
    dispatchEvt (securityHandler emptyHandlers) GEvent.peerConnected = [] ∧
    dispatchEvt (securityHandler emptyHandlers) GEvent.publicKey = [] ∧
    dispatchEvt (securityHandler emptyHandlers) GEvent.peerData = [] := by
  decide

/-- src/app.js lines 163-171: `dataHandler` parses the incoming bytes with
`JSON.parse` — modelled by the `parse` argument, which returns `none` when
`JSON.parse` would throw and otherwise the key-value pairs of the parsed
object — and emits publicKey when the object carries a publicKey field,
peerData otherwise.  There is no try/catch: a parse failure propagates out
of the handler as the exception, here the `Except.error` branch. -/
def dataHandler (parse : String → Option (List (String × String)))
    (data : String) : Except String (List GEvent) :=
  match parse data with
  | none => Except.error "SyntaxError"
  | some parsedData =>
    if "publicKey" ∈ parsedData.map Prod.fst then
      Except.ok [GEvent.publicKey]
    else
      Except.ok [GEvent.peerData]

/-- A miniature stand-in for `JSON.parse` used by the concrete runs below:
it accepts exactly one document, an object with a publicKey field, and
throws (returns `none`) on everything else, as `JSON.parse` does on
malformed input. -/
def toyParse : String → Option (List (String × String)) :=
  fun s => if s = "good" then some [("publicKey", "k")] else none

/-- C9 counterexample: on the malformed message "oops" the data handler does
not report-and-drop; the `JSON.parse` exception escapes the handler, which
therefore does not return normally with the message dropped. -/
theorem dataHandler_malformed_raises :
    dataHandler toyParse "oops" = Except.error "SyntaxError" := by
  simp [dataHandler, toyParse]

/-- C9 amended: a message that fails to parse makes `dataHandler` propagate
the uncaught `JSON.parse` exception — no event is emitted for it and nothing
is caught or reported by the handler — while the handler itself keeps no
state, so any message that does parse, before or after the malformed one, is
still dispatched normally to publicKey or peerData; the code has no `Failed`
state to transition to. -/
theorem dataHandler_malformed_behavior
    (parse : String → Option (List (String × String))) (s : String)
    (h : parse s = none) :
    dataHandler parse s = Except.error "SyntaxError" ∧
    (∀ (s2 : String) (o : List (String × String)), parse s2 = some o →
      dataHandler parse s2 = Except.ok [GEvent.publicKey] ∨
        dataHandler parse s2 = Except.ok [GEvent.peerData]) := by
  constructor
  · simp [dataHandler, h]
  · intro s2 o ho
    by_cases hk : "publicKey" ∈ o.map Prod.fst
    · exact Or.inl (by simp [dataHandler, ho, hk])
    · exact Or.inr (by simp [dataHandler, ho, hk])

/-- C9 witness: instantiated at the toy parser, the malformed message "oops"
and the well-formed message "good". -/
theorem dataHandler_malformed_behavior_witness :
    dataHandler toyParse "oops" = Except.error "SyntaxError" ∧
    (dataHandler toyParse "good" = Except.ok [GEvent.publicKey] ∨
      dataHandler toyParse "good" = Except.ok [GEvent.peerData]) :=
  ⟨(dataHandler_malformed_behavior toyParse "oops" (by simp [toyParse])).1,
    (dataHandler_malformed_behavior toyParse "oops" (by simp [toyParse])).2
      "good" [("publicKey", "k")] (by simp [toyParse])⟩

/-- The mutable-reference view of `setDifference` (src lines 123-129), for
the frame property: JS Sets live on a heap of Set objects addressed by
index.  `new Set(setA)` allocates a fresh Set initialized with the elements
of the Set at address `a`; every `difference.delete(elem)` then mutates only
that fresh Set; nothing is ever written through the addresses `a` or `b`.
Returns the new heap and the address of the result. -/
def setDifferenceHeap (heap : List (List String)) (a b : Nat) :
    List (List String) × Nat :=
  let setA := heap.getD a []
  let setB := heap.getD b []
  let difference := setB.foldl (fun d elem => jsSetDelete d elem) setA
  (heap ++ [difference], heap.length)

/-- C10: `setDifference(A, B)` leaves both argument sets unchanged — after
the call the heap cells of `A` and of `B` hold exactly what they held
before — and returns a freshly allocated set, distinct from both arguments,
whose contents are the value-level difference. -/
theorem setDifference_frame (heap : List (List String)) (a b : Nat)
    (ha : a < heap.length) (hb : b < heap.length) :
    (setDifferenceHeap heap a b).1.getD a [] = heap.getD a [] ∧
    (setDifferenceHeap heap a b).1.getD b [] = heap.getD b [] ∧
    (setDifferenceHeap heap a b).2 ≠ a ∧
    (setDifferenceHeap heap a b).2 ≠ b ∧
    (setDifferenceHeap heap a b).1.getD (setDifferenceHeap heap a b).2 [] =
      setDifference (heap.getD a []) (heap.getD b []) := by
  refine ⟨List.getD_append heap _ [] a ha, List.getD_append heap _ [] b hb,
    Nat.ne_of_gt ha, Nat.ne_of_gt hb, ?_⟩
  show (heap ++ [_]).getD heap.length [] = _
  rw [List.getD_append_right heap _ [] heap.length (Nat.le_refl _)]
  simp [setDifference]

/-- C10 witness: the two-cell heap holding the set with "x" and "y"
at address 0 and the singleton set with "y" at address 1. -/
theorem setDifference_frame_witness :
    (setDifferenceHeap [["x", "y"], ["y"]] 0 1).1.getD 0 [] = ["x", "y"] ∧
    (setDifferenceHeap [["x", "y"], ["y"]] 0 1).1.getD 1 [] = ["y"] ∧
    (setDifferenceHeap [["x", "y"], ["y"]] 0 1).2 ≠ 0 := by
  have h := setDifference_frame [["x", "y"], ["y"]] 0 1 (by decide) (by decide)
  exact ⟨h.1, h.2.1, h.2.2.1⟩
